import Mathlib

/-!
# Verification of the irlib IR-basis core

Shallow embedding of the piecewise-polynomial algebra
(`c++/include/irlib/piecewise_polynomial.hpp`) and of the adaptive
basis generator / Matsubara transform
(`c++/include/irlib/detail/basis_impl.ipp`).

Machine reals (`double`, `mpfr::mpreal`) are modelled by `ℚ` wherever the
source only uses field operations and comparisons, so that the embedded
functions stay executable; values produced through `sqrt`, `sin`, `cos` or
`π` are modelled in `ℝ`/`ℂ`.  Fallible code (C++ `throw`) returns
`Except`.  Quantities the source obtains from routines that live outside
the three header files under study (`detail::gauss_legendre_nodes`,
`normalized_legendre_p`, the dense-mesh SVD inside
`compute_approximate_nodes_even_sector`) enter the embedded functions as
explicit parameters; no claim below depends on their values.
-/

namespace Irlib

/-- Decidable equality of `Except` values, used to evaluate the embedded
fallible functions on concrete inputs. -/
instance {ε α : Type} [DecidableEq ε] [DecidableEq α] : DecidableEq (Except ε α) := fun x y =>
  match x, y with
  | Except.ok a, Except.ok b =>
      if h : a = b then Decidable.isTrue (by rw [h])
      else Decidable.isFalse (fun c => h (Except.ok.inj c))
  | Except.error a, Except.error b =>
      if h : a = b then Decidable.isTrue (by rw [h])
      else Decidable.isFalse (fun c => h (Except.error.inj c))
  | Except.ok _, Except.error _ => Decidable.isFalse (fun c => Except.noConfusion c)
  | Except.error _, Except.ok _ => Decidable.isFalse (fun c => Except.noConfusion c)

/-- Error kinds of the piecewise-polynomial class, following the names
the specification gives them (§7).  `rangeError` is what `check_range`
throws; `partitionMismatch` is the error thrown by `do_op`, `overlap` and
`multiply` on distinct partitions; `outOfBounds` stands for an
out-of-range Eigen/vector access, which in the C++ source is undefined
behaviour, not an exception. -/
inductive PPError where
  | rangeError
  | partitionMismatch
  | outOfBounds
deriving DecidableEq, Repr

/-- Statistics flag `irlib::statistics::statistics_type` (declared in
`common.hpp`, used by the Matsubara-transform routines). -/
inductive Statistics where
  | fermionic
  | bosonic
deriving DecidableEq, Repr

/-- Model of `piecewise_polynomial<T,Tx>` from `piecewise_polynomial.hpp`,
with both scalar parameters instantiated at `ℚ` (the claims under study
use real coefficients).  `k` is the member `k_` (polynomial order),
`sectionEdges` is `section_edges_`, `coeff` is the row-major coefficient
matrix `coeff_(s, p)`: on section `s` the function is
`Σ_{p=0..k} coeff[s][p] * (x − sectionEdges[s])^p`. -/
structure PiecewisePoly where
  k : ℕ
  sectionEdges : List ℚ
  coeff : List (List ℚ)
deriving DecidableEq, Repr, Inhabited

/-- Transcription of the ascending-edges loop of `set_validity`:
`for i: valid = valid && (section_edges_[i] < section_edges_[i + 1])`. -/
def ascending : List ℚ → Prop
  | [] => True
  | [_] => True
  | a :: b :: t => a < b ∧ ascending (b :: t)

instance instDecAscending : (l : List ℚ) → Decidable (ascending l)
  | [] => Decidable.isTrue trivial
  | [_] => Decidable.isTrue trivial
  | _ :: b :: t =>
      have : Decidable (ascending (b :: t)) := instDecAscending (b :: t)
      instDecidableAnd

namespace PiecewisePoly

/-- Model of `num_sections()`: `section_edges_.size() - 1`. -/
def numSections (p : PiecewisePoly) : ℕ := p.sectionEdges.length - 1

/-- Read of `coeff_(s, q)` (out-of-shape reads default to `0`; the valid
objects the source constructs never perform them). -/
def coeffAt (p : PiecewisePoly) (s q : ℕ) : ℚ := (p.coeff.getD s []).getD q 0

/-- Invariants established by `set_validity`: at least one section, the
edge array one longer than the coefficient rows, coefficient rows of
length `k_ + 1`, and strictly ascending section edges. -/
def Valid (p : PiecewisePoly) : Prop :=
  1 ≤ p.numSections ∧
  ascending p.sectionEdges ∧
  p.coeff.length = p.numSections ∧
  ∀ row ∈ p.coeff, row.length = p.k + 1

instance : DecidablePred Valid := fun p =>
  inferInstanceAs (Decidable (1 ≤ p.numSections ∧ ascending p.sectionEdges ∧
    p.coeff.length = p.numSections ∧ ∀ row ∈ p.coeff, row.length = p.k + 1))

end PiecewisePoly

/-! ## Section lookup and evaluation -/

/-- Index on which
`std::upper_bound(section_edges_.begin(), section_edges_.end(), x)` lands:
for an ascending edge array, the index of the first element greater than
`x`, i.e. the number of leading elements `≤ x`. -/
def upper_bound_idx (es : List ℚ) (x : ℚ) : ℕ :=
  (es.takeWhile (fun e => decide (e ≤ x))).length

/-- Model of `piecewise_polynomial::find_section`.  The two endpoint tests
come first; otherwise the result is the `upper_bound` index decremented by
one.  The return type is `ℤ` because for `x` below the first edge the C++
pointer arithmetic `&(*--it) - &section_edges_[0]` yields `-1`. -/
def find_section (p : PiecewisePoly) (x : ℚ) : ℤ :=
  if x = p.sectionEdges.getD 0 0 then 0
  else if x = p.sectionEdges.getD (p.sectionEdges.length - 1) 0 then
    (p.sectionEdges.length : ℤ) - 2
  else (upper_bound_idx p.sectionEdges x : ℤ) - 1

/-- Polynomial sum in `compute_value(Tx x, int section)`:
`Σ_{p=0..k} coeff_(section, p) * (x − section_edges_[section])^p`.
Total, like the C++ body, which performs no bound check of its own. -/
def evalSection (p : PiecewisePoly) (s : ℕ) (x : ℚ) : ℚ :=
  let dx := x - p.sectionEdges.getD s 0
  (List.range (p.k + 1)).foldl (fun r q => r + p.coeffAt s q * dx ^ q) 0

/-- Model of `compute_value(Tx x)`, i.e. `compute_value(x, find_section(x))`.
The C++ version performs no range check (`check_range` below exists but is
never invoked), so a section index outside `[0, num_sections)` is read
as-is: undefined behaviour, modelled as `PPError.outOfBounds`. -/
def compute_value (p : PiecewisePoly) (x : ℚ) : Except PPError ℚ :=
  let s := find_section p x
  if 0 ≤ s ∧ s < (p.numSections : ℤ) then Except.ok (evalSection p s.toNat x)
  else Except.error PPError.outOfBounds

/-- Release-build (`NDEBUG`) value of `compute_value(Tx x)`: the raw
unchecked read.  Used where the source evaluates at points it knows to be
in range. -/
def compute_value_unchecked (p : PiecewisePoly) (x : ℚ) : ℚ :=
  evalSection p (find_section p x).toNat x

/-- Model of `piecewise_polynomial::check_range` — present in the source
but not called from `compute_value` (nor from anywhere else in the class). -/
def check_range (p : PiecewisePoly) (x : ℚ) : Except PPError Unit :=
  if x < p.sectionEdges.getD 0 0 ∨ x > p.sectionEdges.getD (p.sectionEdges.length - 1) 0
  then Except.error PPError.rangeError
  else Except.ok ()

/-- One application of the in-place shift inside
`piecewise_polynomial::derivative`: `coeff_deriv[p] = (p+1)*coeff_deriv[p+1]`
for `p < k_`, and `coeff_deriv[k_] = 0`. -/
def deriv_step (k : ℕ) (c : List ℚ) : List ℚ :=
  (List.range (k + 1)).map (fun q => if q < k then ((q : ℚ) + 1) * c.getD (q + 1) 0 else 0)

/-- Model of `piecewise_polynomial::derivative(x, order, section)`:
`section_eval` is the given section if non-negative, else
`find_section(x)`; the coefficient vector is shifted `order` times and
evaluated at `dx = x − section_edges_[section_eval]`. -/
def derivative (p : PiecewisePoly) (x : ℚ) (order : ℕ) (sec : ℤ) : ℚ :=
  let sEval : ℤ := if 0 ≤ sec then sec else find_section p x
  let s := sEval.toNat
  let dx := x - p.sectionEdges.getD s 0
  let c0 := (List.range (p.k + 1)).map (fun q => p.coeffAt s q)
  let c := (deriv_step p.k)^[order] c0
  (List.range (p.k + 1)).foldl (fun r q => r + c.getD q 0 * dx ^ q) 0

/-! ## Element-wise arithmetic: `detail::pp_element_wise_op` and `detail::do_op` -/

/-- Model of `detail::pp_element_wise_op<T,Op>::perform(p1, p2, p_r, k1, k2, k_r)`:
zero-fills slots `0..k_r`, then overwrites slots `0..min(k1,k2)` with the
element-wise `op`.  Expressed functionally: slot `i` holds
`op p1[i] p2[i]` for `i ≤ min(k1,k2)` and `0` for `min(k1,k2) < i ≤ k_r`. -/
def pp_perform (op : ℚ → ℚ → ℚ) (p1 p2 : List ℚ) (k1 k2 kr : ℕ) : List ℚ :=
  let kmin := min k1 k2
  (List.range (kr + 1)).map (fun i =>
    if i ≤ kmin then op (p1.getD i 0) (p2.getD i 0) else 0)

/-- Model of `detail::do_op`.  Requires identical partitions (else the C++
throws); the result has order `max(k1, k2)`.  Section row `s` of the
result is the scratch vector `coeff_r` after `perform(..., k_r = k_min)`:
`coeff_r` is a value-constructed (all-zero) vector of length `k_new + 1`
and `perform` writes only slots `0..k_min`, so slots `k_min+1..k_new`
stay `0` on every section. -/
def do_op (op : ℚ → ℚ → ℚ) (f1 f2 : PiecewisePoly) : Except PPError PiecewisePoly :=
  if f1.sectionEdges ≠ f2.sectionEdges then Except.error PPError.partitionMismatch
  else
    let kNew := max f1.k f2.k
    let kMin := min f1.k f2.k
    Except.ok
      { k := kNew
        sectionEdges := f1.sectionEdges
        coeff := (List.range f1.numSections).map (fun s =>
          let coeff1 := (List.range (f1.k + 1)).map (fun q => f1.coeffAt s q)
          let coeff2 := (List.range (f2.k + 1)).map (fun q => f2.coeffAt s q)
          let coeffR := pp_perform op coeff1 coeff2 f1.k f2.k kMin
          (List.range (kNew + 1)).map (fun q => coeffR.getD q 0)) }

/-- Model of `operator+` on piecewise polynomials: `do_op` with `std::plus`. -/
def pp_add (f1 f2 : PiecewisePoly) : Except PPError PiecewisePoly :=
  do_op (· + ·) f1 f2

/-- Model of `operator-` on piecewise polynomials: `do_op` with `std::minus`. -/
def pp_sub (f1 f2 : PiecewisePoly) : Except PPError PiecewisePoly :=
  do_op (· - ·) f1 f2

/-! ## `multiply`, `integrate`, `overlap` -/

/-- Per-section coefficient convolution accumulated by `multiply`:
`r.coefficient(s, p1+p2) += f1.coefficient(s, p1) * f2.coefficient(s, p2)`
over `p1 ≤ k1`, `p2 ≤ k2`, collected at target power `q`. -/
def conv_coeff (f1 f2 : PiecewisePoly) (s q : ℕ) : ℚ :=
  (List.range (f1.k + 1)).foldl (fun acc p1 =>
    (List.range (f2.k + 1)).foldl (fun acc2 p2 =>
      if p1 + p2 = q then acc2 + f1.coeffAt s p1 * f2.coeffAt s p2 else acc2) acc) 0

/-- Model of `irlib::multiply`: requires identical partitions; result order
`k1 + k2`; per-section coefficient convolution. -/
def multiply (f1 f2 : PiecewisePoly) : Except PPError PiecewisePoly :=
  if f1.sectionEdges ≠ f2.sectionEdges then Except.error PPError.partitionMismatch
  else
    let k := f1.k + f2.k
    Except.ok
      { k := k
        sectionEdges := f1.sectionEdges
        coeff := (List.range f1.numSections).map (fun s =>
          (List.range (k + 1)).map (fun q => conv_coeff f1 f2 s q)) }

/-- Model of `irlib::integrate`: `rvec[p] = Σ_s Δ_s^{p+1} · coeff(s,p)`
(the source accumulates `dx_power` starting at `dx`), then
`Σ_p rvec[p]/(p+1)`. -/
def integrate (y : PiecewisePoly) : ℚ :=
  let rvec := (List.range (y.k + 1)).map (fun q =>
    (List.range y.numSections).foldl (fun acc s =>
      let dx := y.sectionEdges.getD (s + 1) 0 - y.sectionEdges.getD s 0
      acc + dx ^ (q + 1) * y.coeffAt s q) 0)
  (List.range (y.k + 1)).foldl (fun r q => r + rvec.getD q 0 / ((q : ℚ) + 1)) 0

/-- Accumulation inside `piecewise_polynomial::overlap` for real scalars
(`detail::outer_product` is plain multiplication there):
`Σ_s Σ_{p,p2} a[s,p]·b[s,p2]·Δ_s^{p+p2+1}/(p+p2+1)`. -/
def overlap_val (f g : PiecewisePoly) : ℚ :=
  (List.range f.numSections).foldl (fun r s =>
    let dx := f.sectionEdges.getD (s + 1) 0 - f.sectionEdges.getD s 0
    (List.range (f.k + 1)).foldl (fun r2 p =>
      (List.range (g.k + 1)).foldl (fun r3 p2 =>
        r3 + f.coeffAt s p * g.coeffAt s p2 * dx ^ (p + p2 + 1) / ((p : ℚ) + p2 + 1)) r2) r) 0

/-- Model of `piecewise_polynomial::overlap`: the accumulation above
guarded by the partition check. -/
def overlap (f g : PiecewisePoly) : Except PPError ℚ :=
  if f.sectionEdges ≠ g.sectionEdges then Except.error PPError.partitionMismatch
  else Except.ok (overlap_val f g)

/-! ## Initial partitions of the adaptive generator (basis_impl.ipp) -/

/-- Model of the `gen_section_edges` lambda inside
`generate_ir_basis_functions`: push `0`, then the node list, then `1`. -/
def gen_section_edges (nodes : List ℚ) : List ℚ := 0 :: (nodes ++ [1])

/-- Initial x- and y-partitions built by `generate_ir_basis_functions`
(lines 400–432 of `basis_impl.ipp`).  `nodes_x, nodes_y` start out empty
and are assigned from `compute_approximate_nodes_even_sector` ONLY inside
the `if (verbose)` block; `approxNodes` abstracts the value that call
would return (its dense-mesh double SVD lives partly outside the embedded
headers and its exact value is irrelevant to the data flow modelled here). -/
def initial_partitions (verbose : Bool) (approxNodes : List ℚ × List ℚ) :
    List ℚ × List ℚ :=
  let nodes := if verbose then approxNodes else ([], [])
  (gen_section_edges nodes.1, gen_section_edges nodes.2)

/-! ## Singular-value interleaving (generate_ir_basis_functions_impl) -/

/-- Tag recording which SVD sector a selected singular triple came from. -/
inductive Sector where
  | even
  | odd
deriving DecidableEq, Repr

/-- Body of the pick-up loop in `generate_ir_basis_functions_impl`
(lines 277–294): walk the even and odd singular-value lists in lockstep
(`i` is the loop counter, `cnt` the current size of `sv`), stopping as
soon as `sv.size() == max_dim` or the candidate value divided by the even
leader `s0` drops strictly below `sv_cutoff`.  Each kept entry records its
value, its sector and its column index (standing for the corresponding
`matrixU()/matrixV()` columns pushed alongside). -/
def pickSVGo (s0 sv_cutoff : ℚ) (max_dim : ℕ) :
    List ℚ → List ℚ → ℕ → ℕ → List (ℚ × Sector × ℕ)
  | [], _, _, _ => []
  | _ :: _, [], _, _ => []
  | e :: es, o :: os, i, cnt =>
      if cnt = max_dim ∨ e / s0 < sv_cutoff then []
      else if cnt + 1 = max_dim ∨ o / s0 < sv_cutoff then [(e, Sector.even, i)]
      else (e, Sector.even, i) :: (o, Sector.odd, i) ::
        pickSVGo s0 sv_cutoff max_dim es os (i + 1) (cnt + 2)

/-- Model of the singular-triple selection of
`generate_ir_basis_functions_impl`: `s0 = svd_even.singularValues()[0]`,
then the interleaving loop.  (Both SVDs of the C++ source decompose
matrices of the same shape, so the two lists have equal length there;
the `[]` fallbacks cover the degenerate cases.) -/
def pickSV (max_dim : ℕ) (sv_cutoff : ℚ) (svEven svOdd : List ℚ) :
    List (ℚ × Sector × ℕ) :=
  match svEven with
  | [] => []
  | s0 :: _ => pickSVGo s0 sv_cutoff max_dim svEven svOdd 0 0

/-! ## Per-section tail residuals (generate_ir_basis_functions_impl, lines 361–378) -/

/-- Model of the per-section x-residual the source reports:
`residual_x[s] = |Uvec[l](s*num_local_poly + num_local_poly - 1) * sqrt((2.*l+1)/dx)|`
with `l = Uvec.size() - 1` (the index of the LAST kept singular vector)
and `dx` the section width.  The y-loop is textually identical with
`Vvec` and the y-edges, so this single definition models both.
`uvecLast` abstracts the entries of that last singular vector, `dim` the
number of kept singular triples `Uvec.size()`. -/
noncomputable def residual_x_code (uvecLast : ℕ → ℚ) (num_local_poly dim : ℕ)
    (section_edges : List ℚ) (s : ℕ) : ℝ :=
  let l := dim - 1
  let dx : ℝ := ((section_edges.getD (s + 1) 0 - section_edges.getD s 0 : ℚ) : ℝ)
  |((uvecLast (s * num_local_poly + num_local_poly - 1) : ℚ) : ℝ) *
    Real.sqrt ((2 * (l : ℝ) + 1) / dx)|

/-- Per-section residual formula as the claim states it — written from the
words of the specification, to be compared with `residual_x_code`:
`|v_last[s·num_local_poly + num_local_poly − 1]| · sqrt((2·num_local_poly − 1)/Δ_s)`. -/
noncomputable def residual_x_claim (uvecLast : ℕ → ℚ) (num_local_poly : ℕ)
    (section_edges : List ℚ) (s : ℕ) : ℝ :=
  let dx : ℝ := ((section_edges.getD (s + 1) 0 - section_edges.getD s 0 : ℚ) : ℝ)
  |((uvecLast (s * num_local_poly + num_local_poly - 1) : ℚ) : ℝ)| *
    Real.sqrt ((2 * (num_local_poly : ℝ) - 1) / dx)

/-- Claim-shaped residual formula with the radicand the code actually
uses: `2·dim − 1` where `dim` is the number of kept singular triples. -/
noncomputable def residual_x_dim_formula (uvecLast : ℕ → ℚ) (num_local_poly dim : ℕ)
    (section_edges : List ℚ) (s : ℕ) : ℝ :=
  let dx : ℝ := ((section_edges.getD (s + 1) 0 - section_edges.getD s 0 : ℚ) : ℝ)
  |((uvecLast (s * num_local_poly + num_local_poly - 1) : ℚ) : ℝ)| *
    Real.sqrt ((2 * (dim : ℝ) - 1) / dx)

/-! ## Ascending-order guards of the Matsubara transform -/

/-- Model of the input-order guard of `compute_Tbar_ol` (lines 978–982):
`for i: if (o_vec[i] > o_vec[i+1]) throw`.  Note the guard fires only on a
strictly descending adjacent pair. -/
def tbar_order_guard : List ℤ → Except String Unit
  | [] => Except.ok ()
  | [_] => Except.ok ()
  | a :: b :: rest =>
      if a > b then Except.error ("o must be given in strictly ascending order!")
      else tbar_order_guard (b :: rest)

/-- Model of the identical input-order guard of
`compute_transformation_matrix_to_matsubara` (the `compute_Tnl` entry
point, lines 881–885): `for i: if (n_vec[i] > n_vec[i+1]) throw`. -/
def tnl_order_guard : List ℤ → Except String Unit
  | [] => Except.ok ()
  | [_] => Except.ok ()
  | a :: b :: rest =>
      if a > b then Except.error ("n_vec must be in strictly ascending order!")
      else tnl_order_guard (b :: rest)

/-! ## Post-processing of compute_Tbar_ol (lines 989–1007) -/

/-- Symmetrisation loop of `compute_Tbar_ol`: for each entry, if
`(l + o_vec[i]) % 2 == 0` replace it by `2 * real part` (a real value),
else by `std::complex(0, 2 * imag part)`. -/
noncomputable def tbar_symmetrize (o_vec : List ℤ) (T : ℕ → ℕ → ℂ) (i l : ℕ) : ℂ :=
  if ((l : ℤ) + o_vec.getD i 0) % 2 = 0 then (((2 * (T i l).re : ℝ)) : ℂ)
  else (⟨0, 2 * (T i l).im⟩ : ℂ)

/-- Normalisation loop of `compute_Tbar_ol`:
`inv_norm[l] = 1 / sqrt(2 * bf_src[l].overlap(bf_src[l]))` (a self-overlap,
so the partition guard of `overlap` trivially passes and only the
accumulated value matters), then every entry of column `l` is multiplied
by `inv_norm[l] * sqrt(0.5)`. -/
noncomputable def tbar_normalize (bf : List PiecewisePoly) (T : ℕ → ℕ → ℂ) (n l : ℕ) : ℂ :=
  let inv_norm : ℝ :=
    1 / Real.sqrt (2 * ((overlap_val (bf.getD l default) (bf.getD l default) : ℚ) : ℝ))
  T n l * (((inv_norm * Real.sqrt 0.5 : ℝ)) : ℂ)

/-- Post-processing pipeline of `compute_Tbar_ol` applied to the tensor
`raw` produced by `compute_integral_with_exp`: the symmetrisation loop
followed by the normalisation loop. -/
noncomputable def compute_Tbar_ol_post (o_vec : List ℤ) (bf : List PiecewisePoly)
    (raw : ℕ → ℕ → ℂ) (i l : ℕ) : ℂ :=
  tbar_normalize bf (fun n l2 => tbar_symmetrize o_vec raw n l2) i l

/-! ## compute_Tnl_tail and compute_Tnl_impl (precision handling) -/

/-- Model of `my_exp(z_img)`: `(cos(z_img), sin(z_img))`. -/
noncomputable def my_exp (t : ℝ) : ℂ := ⟨Real.cos t, Real.sin t⟩

/-- Model of `composite_gauss_legendre_nodes` (lines 32–52): per section,
map each reference node `ξ` to `a + ((b−a)/2)(ξ+1)` with weight
`((b−a)/2)·w`, concatenated section-major. -/
def composite_gauss_legendre_nodes (section_edges : List ℚ)
    (nodes : List (ℚ × ℚ)) : List (ℚ × ℚ) :=
  (List.range (section_edges.length - 1)).flatMap (fun s =>
    nodes.map (fun nw =>
      let a := section_edges.getD s 0
      let b := section_edges.getD (s + 1) 0
      (a + ((b - a) / 2) * (nw.1 + 1), ((b - a) / 2) * nw.2)))

/-- Value computed by `compute_Tnl_tail` once past its zero-frequency
check: the ladder `result += -sign_s * coeff * (1 - sign_s*sign_lm) *
p.derivative(1, m)` with `coeff` running over the powers of `(0, 1/w)`,
divided by `sqrt(2)` at the end. -/
noncomputable def compute_Tnl_tail_val (p : PiecewisePoly) (w : ℚ) (l_even : Bool)
    (stat : Statistics) (num_deriv : ℕ) : ℂ :=
  let sign_s : ℤ := if stat = Statistics.bosonic then 1 else -1
  let fact : ℂ := ⟨0, ((1 / w : ℚ) : ℝ)⟩
  let sign_l : ℤ := if l_even then 1 else -1
  let st := (List.range num_deriv).foldl (fun (st : ℂ × ℂ) m =>
    let sign_m : ℤ := if m % 2 = 0 then 1 else -1
    let sign_lm := sign_l * sign_m
    (st.1 + (-((sign_s : ℝ)) : ℂ) * st.2 * (((1 - sign_s * sign_lm : ℤ) : ℝ) : ℂ) *
      (((derivative p 1 m (-1) : ℚ) : ℝ) : ℂ),
     st.2 * fact)) ((0 : ℂ), fact)
  st.1 / ((Real.sqrt 2 : ℝ) : ℂ)

/-- Model of `compute_Tnl_tail` (lines 1169–1192): throws
`Error zero frequency` when `w == 0`, else returns the tail value. -/
noncomputable def compute_Tnl_tail (p : PiecewisePoly) (w : ℚ) (l_even : Bool)
    (stat : Statistics) (num_deriv : ℕ) : Except String ℂ :=
  if w = 0 then Except.error ("Error zero frequency")
  else Except.ok (compute_Tnl_tail_val p w l_even stat num_deriv)

/-- Model of `compute_Tnl_impl` (lines 1197–1259), threading the
process-wide MPFR default precision as an explicit `ℕ` state (the
embedded arithmetic is exact, so the precision only matters as state).
`d2b` abstracts `mpfr::digits2bits`; `localNodes` abstracts
`detail::gauss_legendre_nodes<mpreal>(24)` (defined outside the embedded
headers — its call precedes any precision change).  Per section the
source sets the default precision to `digits2bits(digits_A)` on the
low-frequency branch and to `digits2bits(digits_B)` on the
high-frequency branch; an exception raised after that point would
propagate before the final `set_default_prec(prec_bak)` (there is no
scope guard), which the `Except.error` branches reflect by returning the
precision the loop left behind. -/
noncomputable def compute_Tnl_impl (p : PiecewisePoly) (even : Bool)
    (stat : Statistics) (w : ℚ) (digits_A digits_B : ℕ) (d2b : ℕ → ℕ)
    (localNodes : List (ℚ × ℚ)) (prec0 : ℕ) : Except String ℂ × ℕ :=
  let prec_bak := prec0
  let globalNodes := composite_gauss_legendre_nodes p.sectionEdges localNodes
  let nLocal := localNodes.length
  let looped : ℂ × ℕ := (List.range p.numSections).foldl (fun acc s =>
    let x0 := p.sectionEdges.getD s 0
    let x1 := p.sectionEdges.getD (s + 1) 0
    if ((w : ℝ) * (((x1 : ℚ) : ℝ) - ((x0 : ℚ) : ℝ)) < 0.1 * Real.pi) then
      let prec1 := d2b digits_A
      let tmp : ℂ := ((List.range nLocal).map (fun n =>
        let node := globalNodes.getD (s * nLocal + n) (0, 0)
        (((compute_value_unchecked p node.1 : ℚ) : ℝ) : ℂ) *
          my_exp (((w : ℚ) : ℝ) * ((node.1 : ℚ) : ℝ)) * (((node.2 : ℚ) : ℝ) : ℂ))).sum
      (acc.1 + tmp, prec1)
    else
      let prec1 := d2b digits_B
      let iw : ℂ := ⟨0, ((w : ℚ) : ℝ)⟩
      let exp0 := my_exp (((w : ℚ) : ℝ) * ((x0 : ℚ) : ℝ))
      let exp_tmp := my_exp (((w : ℚ) : ℝ) * (((x1 - x0 : ℚ)) : ℝ))
      let Jk : ℂ := ((List.range (p.k + 1)).reverse).foldl (fun Jk q =>
        let f0 := derivative p x0 q (s : ℤ)
        let f1 := derivative p x1 q (s : ℤ)
        ((exp_tmp * (((f1 : ℚ) : ℝ) : ℂ) - (((f0 : ℚ) : ℝ) : ℂ)) * exp0 - Jk) / iw) 0
      (acc.1 + Jk, prec1)) ((0 : ℂ), prec0)
  let result1 : ℂ :=
    if even then (((Real.sqrt 2 : ℝ)) : ℂ) * (((looped.1.re : ℝ)) : ℂ) * my_exp ((w : ℚ) : ℝ)
    else (((Real.sqrt 2 : ℝ)) : ℂ) * (⟨0, looped.1.im⟩ : ℂ) * my_exp ((w : ℚ) : ℝ)
  if w = 0 then (Except.ok result1, prec_bak)
  else
    match compute_Tnl_tail p w even stat (p.k + 1),
          compute_Tnl_tail p w even stat (p.k + 1 - 2) with
    | Except.ok tail_full, Except.ok tail_two_less =>
        (Except.ok (if Complex.abs ((tail_full - tail_two_less) / tail_full) < 1e-12
                    then tail_full else result1), prec_bak)
    | Except.error e, _ => (Except.error e, looped.2)
    | _, Except.error e => (Except.error e, looped.2)

/-! ## Concrete objects used by the concrete-scenario claims and witnesses -/

/-- Function `f(x) = x` on the single section `[0,1]`: order 1,
coefficients `(0, 1)`. -/
def exF : PiecewisePoly := { k := 1, sectionEdges := [0, 1], coeff := [[0, 1]] }

/-- Constant function `g(x) = 1` on `[0,1]`: order 0, coefficient `(1)`. -/
def exG : PiecewisePoly := { k := 0, sectionEdges := [0, 1], coeff := [[1]] }

/-- Value `pp_add exF exG` computes: the order-0 coefficients are added
and the order-1 coefficient of `exF` is zeroed. -/
def exFG : PiecewisePoly := { k := 1, sectionEdges := [0, 1], coeff := [[1, 0]] }

/-- Value `pp_sub exFG exG` computes: the zero function of order 1. -/
def exFGsubG : PiecewisePoly := { k := 1, sectionEdges := [0, 1], coeff := [[0, 0]] }

/-- Witness input: order-1 polynomial `1 + 2x` on `[0,1]`. -/
def wF : PiecewisePoly := { k := 1, sectionEdges := [0, 1], coeff := [[1, 2]] }

/-- Witness input: order-1 polynomial `3 + 4x` on `[0,1]`. -/
def wG : PiecewisePoly := { k := 1, sectionEdges := [0, 1], coeff := [[3, 4]] }

/-- Witness value of `pp_add wF wG`. -/
def wH : PiecewisePoly := { k := 1, sectionEdges := [0, 1], coeff := [[4, 6]] }

/-- Witness value of `pp_sub wH wG`. -/
def wH2 : PiecewisePoly := { k := 1, sectionEdges := [0, 1], coeff := [[1, 2]] }

/-- Three-edge piecewise polynomial for the section-lookup witnesses:
constant `1` on `[0, 1]` and constant `2` on `[1, 2]` (the lookup logic
does not depend on the edges being `0` and `1`). -/
def exH : PiecewisePoly := { k := 0, sectionEdges := [0, 1, 2], coeff := [[1], [2]] }

/-- Concrete raw Matsubara tensor for the `compute_Tbar_ol` witness. -/
noncomputable def rawEx : ℕ → ℕ → ℂ := fun _ _ => ⟨3, 4⟩

end Irlib

namespace Irlib

/-! # Helper lemmas -/

theorem ascending_iff_chain (l : List ℚ) : ascending l ↔ l.Chain' (· < ·) := by
  induction l with
  | nil => simp [ascending]
  | cons a t ih =>
    cases t with
    | nil => simp [ascending]
    | cons b t2 =>
      rw [show ascending (a :: b :: t2) = (a < b ∧ ascending (b :: t2)) from rfl]
      rw [List.chain'_cons, ih]

theorem getD_map_range {α : Type} (f : ℕ → α) (d : α) (n i : ℕ) :
    ((List.range n).map f).getD i d = if i < n then f i else d := by
  by_cases h : i < n
  · rw [List.getD_eq_getElem?_getD, List.getElem?_map, List.getElem?_range h]
    simp [h]
  · rw [List.getD_eq_getElem?_getD, List.getElem?_eq_none]
    · simp [h]
    · simpa using Nat.le_of_not_lt h

theorem getD_eq_get (l : List ℚ) (i : ℕ) (hi : i < l.length) :
    l.getD i 0 = l.get ⟨i, hi⟩ := by
  rw [List.getD_eq_getElem?_getD, List.getElem?_eq_getElem hi]
  simp

theorem getD_mem (l : List ℚ) (i : ℕ) (hi : i < l.length) : l.getD i 0 ∈ l := by
  rw [getD_eq_get l i hi]
  exact List.get_mem l i hi

theorem sorted_getD_lt (es : List ℚ) (hs : es.Pairwise (· < ·)) (i j : ℕ)
    (hij : i < j) (hj : j < es.length) : es.getD i 0 < es.getD j 0 := by
  have hi : i < es.length := lt_trans hij hj
  rw [getD_eq_get es i hi, getD_eq_get es j hj]
  exact List.pairwise_iff_get.mp hs ⟨i, hi⟩ ⟨j, hj⟩ hij

theorem sorted_le_last (es : List ℚ) (hs : es.Pairwise (· < ·)) (e : ℚ) (he : e ∈ es) :
    e ≤ es.getD (es.length - 1) 0 := by
  obtain ⟨n, rfl⟩ := List.mem_iff_get.mp he
  obtain ⟨i, hi⟩ := n
  rw [show es.get ⟨i, hi⟩ = es.getD i 0 from (getD_eq_get es i hi).symm]
  rcases Nat.lt_or_ge i (es.length - 1) with h | h
  · exact le_of_lt (sorted_getD_lt es hs i (es.length - 1) h (by omega))
  · have : i = es.length - 1 := by omega
    rw [this]

theorem takeWhile_le_sorted (es : List ℚ) (hs : es.Pairwise (· < ·)) :
    ∀ j, j < es.length →
      (es.takeWhile (fun e => decide (e ≤ es.getD j 0))).length = j + 1 := by
  induction es with
  | nil => intro j hj; simp at hj
  | cons a t ih =>
    intro j hj
    rcases List.pairwise_cons.mp hs with ⟨ha, ht⟩
    cases j with
    | zero =>
      simp only [List.getD_cons_zero]
      rw [List.takeWhile_cons, if_pos (by simp)]
      cases t with
      | nil => simp
      | cons b t2 =>
        have hab : ¬ (b ≤ a) := not_le.mpr (ha b (by simp))
        rw [List.takeWhile_cons, if_neg (by simpa using hab)]
        simp
    | succ j2 =>
      have hj2 : j2 < t.length := by simpa using hj
      have hx : (a :: t).getD (j2 + 1) 0 = t.getD j2 0 := by
        simp [List.getD_cons_succ]
      rw [hx, List.takeWhile_cons]
      have hax : a ≤ t.getD j2 0 := le_of_lt (ha _ (getD_mem t j2 hj2))
      rw [if_pos (by simpa using hax), List.length_cons, ih ht j2 hj2]

theorem takeWhile_all_le (es : List ℚ) (x : ℚ) (hx : ∀ e ∈ es, e ≤ x) :
    es.takeWhile (fun e => decide (e ≤ x)) = es := by
  induction es with
  | nil => rfl
  | cons a t ih =>
    rw [List.takeWhile_cons, if_pos (by simpa using hx a (by simp))]
    rw [ih (fun e he => hx e (by simp [he]))]

/-! ## find_section helper lemmas -/

theorem valid_edges_length (p : PiecewisePoly) (hp : p.Valid) :
    p.sectionEdges.length = p.numSections + 1 := by
  have h1 := hp.1
  unfold PiecewisePoly.numSections at h1 ⊢
  omega

theorem find_section_first (p : PiecewisePoly) :
    find_section p (p.sectionEdges.getD 0 0) = 0 := by
  unfold find_section
  rw [if_pos rfl]

theorem find_section_last (p : PiecewisePoly) (hp : p.Valid) :
    find_section p (p.sectionEdges.getD p.numSections 0) = (p.numSections : ℤ) - 1 := by
  have hpw := List.chain'_iff_pairwise.mp ((ascending_iff_chain p.sectionEdges).mp hp.2.1)
  have hlen := valid_edges_length p hp
  have hN := hp.1
  have hidx : p.sectionEdges.length - 1 = p.numSections := by omega
  unfold find_section
  rw [if_neg, if_pos]
  · omega
  · rw [hidx]
  · have : p.sectionEdges.getD 0 0 < p.sectionEdges.getD p.numSections 0 :=
      sorted_getD_lt p.sectionEdges hpw 0 p.numSections (by omega) (by omega)
    exact ne_of_gt this

theorem find_section_interior (p : PiecewisePoly) (hp : p.Valid) (s : ℕ)
    (hs1 : 1 ≤ s) (hs2 : s ≤ p.numSections - 1) :
    find_section p (p.sectionEdges.getD s 0) = (s : ℤ) := by
  have hpw := List.chain'_iff_pairwise.mp ((ascending_iff_chain p.sectionEdges).mp hp.2.1)
  have hlen := valid_edges_length p hp
  have hN := hp.1
  have hsN : s < p.numSections := by omega
  have hslen : s < p.sectionEdges.length := by omega
  unfold find_section
  rw [if_neg, if_neg]
  · unfold upper_bound_idx
    rw [takeWhile_le_sorted p.sectionEdges hpw s hslen]
    omega
  · have : p.sectionEdges.getD s 0 < p.sectionEdges.getD (p.sectionEdges.length - 1) 0 :=
      sorted_getD_lt p.sectionEdges hpw s (p.sectionEdges.length - 1) (by omega) (by omega)
    exact ne_of_lt this
  · have : p.sectionEdges.getD 0 0 < p.sectionEdges.getD s 0 :=
      sorted_getD_lt p.sectionEdges hpw 0 s (by omega) (by omega)
    exact ne_of_gt this

theorem find_section_below (p : PiecewisePoly) (hp : p.Valid) (x : ℚ)
    (hx : x < p.sectionEdges.getD 0 0) : find_section p x = -1 := by
  have hpw := List.chain'_iff_pairwise.mp ((ascending_iff_chain p.sectionEdges).mp hp.2.1)
  have hlen := valid_edges_length p hp
  have hN := hp.1
  have hle : p.sectionEdges.getD 0 0 ≤ p.sectionEdges.getD (p.sectionEdges.length - 1) 0 :=
    sorted_le_last p.sectionEdges hpw _ (getD_mem p.sectionEdges 0 (by omega))
  unfold find_section
  rw [if_neg (ne_of_lt hx), if_neg (ne_of_lt (lt_of_lt_of_le hx hle))]
  cases hes : p.sectionEdges with
  | nil => rw [hes] at hlen; simp at hlen
  | cons a t =>
    have hxa : x < a := by rw [hes] at hx; simpa using hx
    unfold upper_bound_idx
    rw [List.takeWhile_cons, if_neg (by simpa using not_le.mpr hxa)]
    simp

theorem find_section_above (p : PiecewisePoly) (hp : p.Valid) (x : ℚ)
    (hx : p.sectionEdges.getD (p.sectionEdges.length - 1) 0 < x) :
    find_section p x = (p.sectionEdges.length : ℤ) - 1 := by
  have hpw := List.chain'_iff_pairwise.mp ((ascending_iff_chain p.sectionEdges).mp hp.2.1)
  have hlen := valid_edges_length p hp
  have hN := hp.1
  have hle : p.sectionEdges.getD 0 0 ≤ p.sectionEdges.getD (p.sectionEdges.length - 1) 0 :=
    sorted_le_last p.sectionEdges hpw _ (getD_mem p.sectionEdges 0 (by omega))
  unfold find_section
  rw [if_neg (ne_of_gt (lt_of_le_of_lt hle hx)), if_neg (ne_of_gt hx)]
  unfold upper_bound_idx
  rw [takeWhile_all_le p.sectionEdges x
    (fun e he => le_of_lt (lt_of_le_of_lt (sorted_le_last p.sectionEdges hpw e he) hx))]

end Irlib

namespace Irlib

/-! ## do_op structure lemmas -/

theorem do_op_ok_of_eq_edges (op : ℚ → ℚ → ℚ) (f1 f2 : PiecewisePoly)
    (he : f1.sectionEdges = f2.sectionEdges) :
    do_op op f1 f2 = Except.ok
      { k := max f1.k f2.k
        sectionEdges := f1.sectionEdges
        coeff := (List.range f1.numSections).map (fun s =>
          let coeff1 := (List.range (f1.k + 1)).map (fun q => f1.coeffAt s q)
          let coeff2 := (List.range (f2.k + 1)).map (fun q => f2.coeffAt s q)
          let coeffR := pp_perform op coeff1 coeff2 f1.k f2.k (min f1.k f2.k)
          (List.range (max f1.k f2.k + 1)).map (fun q => coeffR.getD q 0)) } := by
  unfold do_op
  rw [if_neg (by simpa using he)]

theorem do_op_fields (op : ℚ → ℚ → ℚ) (f1 f2 h : PiecewisePoly)
    (hok : do_op op f1 f2 = Except.ok h) :
    h.k = max f1.k f2.k ∧ h.sectionEdges = f1.sectionEdges := by
  unfold do_op at hok
  by_cases he : f1.sectionEdges = f2.sectionEdges
  · rw [if_neg (by simpa using he)] at hok
    have := Except.ok.inj hok
    rw [← this]
    exact ⟨rfl, rfl⟩
  · rw [if_pos (by simpa using he)] at hok
    exact absurd hok (by simp)

theorem do_op_coeffAt (op : ℚ → ℚ → ℚ) (f1 f2 h : PiecewisePoly)
    (hok : do_op op f1 f2 = Except.ok h) (s i : ℕ)
    (hs : s < f1.numSections) (hi : i ≤ max f1.k f2.k) :
    h.coeffAt s i =
      if i ≤ min f1.k f2.k then op (f1.coeffAt s i) (f2.coeffAt s i) else 0 := by
  unfold do_op at hok
  by_cases he : f1.sectionEdges = f2.sectionEdges
  · rw [if_neg (by simpa using he)] at hok
    have hh := Except.ok.inj hok
    rw [← hh]
    show (PiecewisePoly.coeffAt _ s i) = _
    unfold PiecewisePoly.coeffAt
    simp only
    rw [getD_map_range, if_pos hs, getD_map_range, if_pos (Nat.lt_succ_of_le hi)]
    unfold pp_perform
    simp only
    rw [getD_map_range]
    by_cases hmin : i ≤ min f1.k f2.k
    · rw [if_pos (Nat.lt_succ_of_le hmin), if_pos hmin, if_pos hmin]
      rw [getD_map_range, if_pos (Nat.lt_succ_of_le (le_trans hmin (min_le_left _ _)))]
      rw [getD_map_range, if_pos (Nat.lt_succ_of_le (le_trans hmin (min_le_right _ _)))]
    · rw [if_neg (by omega), if_neg hmin]
  · rw [if_pos (by simpa using he)] at hok
    exact absurd hok (by simp)

/-- C9: for the piecewise polynomial `f(x) = x` of order 1 on the single
section `[0,1]` with coefficients `(0, 1)`, `multiply(f, f)` is the
order-2 piecewise polynomial with per-section coefficient convolution
(coefficients `(0, 0, 1)`), and `integrate(multiply(f, f)) = 1/3`
exactly in the rational model (up to round-off in the machine model). -/
theorem C9_multiply_integrate_third :
    multiply exF exF = Except.ok { k := 2, sectionEdges := [0, 1], coeff := [[0, 0, 1]] } ∧
    (multiply exF exF).map integrate = Except.ok (1/3 : ℚ) := by
  constructor
  · simp [multiply, conv_coeff, exF, PiecewisePoly.numSections,
      PiecewisePoly.coeffAt, List.range_succ]
  · simp [multiply, integrate, conv_coeff, exF, Except.map,
      PiecewisePoly.numSections, PiecewisePoly.coeffAt, List.range_succ]
    norm_num

/-- C2 counterexample: for `f(x) = x` (order 1) and `g(x) = 1` (order 0)
on the same partition `[0,1]`, the code computes `f+g` with the order-1
coefficient ZEROED (the higher-order input is not zero-padded into the
result), so `(f+g) − g` is the zero function, not `f` — the claim fails
when the orders of the inputs differ. -/
theorem C2_counterexample_add_sub :
    pp_add exF exG = Except.ok exFG ∧
    pp_sub exFG exG = Except.ok exFGsubG ∧
    exFGsubG ≠ exF ∧
    exFGsubG.coeffAt 0 1 = 0 ∧ exF.coeffAt 0 1 = 1 := by
  refine ⟨?_, ?_, by decide, by decide, by decide⟩
  · simp [pp_add, do_op, pp_perform, exF, exG, exFG, PiecewisePoly.numSections,
      PiecewisePoly.coeffAt, List.range_succ]
  · simp [pp_sub, do_op, pp_perform, exF, exG, exFG, exFGsubG,
      PiecewisePoly.numSections, PiecewisePoly.coeffAt, List.range_succ]

/-- C2 (amended): for piecewise polynomials on the same partition, `f+g`
and `f−g` have order `max(order f, order g)`; the coefficient at every
power `p ≤ min(order f, order g)` is the element-wise sum (difference),
and every coefficient above the min order is zero — the higher-order
input is dropped there, not zero-padded into the result.  Consequently
`(f+g) − g = f` (coefficient-wise, hence as a function) holds exactly
when `f` and `g` have equal orders. -/
theorem C2_add_sub_coefficients (f g : PiecewisePoly)
    (_he : f.sectionEdges = g.sectionEdges) :
    (∀ h, pp_add f g = Except.ok h →
      h.k = max f.k g.k ∧ h.sectionEdges = f.sectionEdges ∧
      ∀ s i, s < f.numSections → i ≤ max f.k g.k →
        h.coeffAt s i =
          if i ≤ min f.k g.k then f.coeffAt s i + g.coeffAt s i else 0) ∧
    (f.k = g.k →
      ∀ h h2, pp_add f g = Except.ok h → pp_sub h g = Except.ok h2 →
        h2.k = f.k ∧ h2.sectionEdges = f.sectionEdges ∧
        ∀ s i, s < f.numSections → i ≤ f.k → h2.coeffAt s i = f.coeffAt s i) := by
  constructor
  · intro h hok
    obtain ⟨hk, hedg⟩ := do_op_fields _ f g h hok
    exact ⟨hk, hedg, fun s i hs hi => do_op_coeffAt _ f g h hok s i hs hi⟩
  · intro hkeq h h2 hok1 hok2
    obtain ⟨hk1, hedg1⟩ := do_op_fields _ f g h hok1
    obtain ⟨hk2, hedg2⟩ := do_op_fields _ h g h2 hok2
    have hmaxk : max f.k g.k = f.k := by omega
    have hkh : h.k = f.k := by omega
    have hns : h.numSections = f.numSections := by
      unfold PiecewisePoly.numSections
      rw [hedg1]
    refine ⟨by omega, by rw [hedg2, hedg1], ?_⟩
    intro s i hs hi
    have hc2 := do_op_coeffAt _ h g h2 hok2 s i (by omega) (by omega)
    have hc1 := do_op_coeffAt _ f g h hok1 s i hs (by omega)
    rw [hc2, if_pos (by omega), hc1, if_pos (by omega)]
    ring

/-- C2 witness: the amended theorem applied to the equal-order inputs
`1 + 2x` and `3 + 4x` on `[0,1]`. -/
theorem C2_add_sub_coefficients_witness :
    wH2.k = wF.k ∧ wH2.sectionEdges = wF.sectionEdges ∧ wH2.coeffAt 0 1 = wF.coeffAt 0 1 := by
  have hadd : pp_add wF wG = Except.ok wH := by
    simp [pp_add, do_op, pp_perform, wF, wG, wH, PiecewisePoly.numSections,
      PiecewisePoly.coeffAt, List.range_succ]
    norm_num
  have hsub : pp_sub wH wG = Except.ok wH2 := by
    simp [pp_sub, do_op, pp_perform, wG, wH, wH2, PiecewisePoly.numSections,
      PiecewisePoly.coeffAt, List.range_succ]
    norm_num
  have base := (C2_add_sub_coefficients wF wG (by decide)).2 (by decide) wH wH2 hadd hsub
  exact ⟨base.1, base.2.1, base.2.2 0 1 (by decide) (by decide)⟩

end Irlib

namespace Irlib

/-- C10: for every valid piecewise polynomial, `find_section` maps an
interior section edge `S[s]` (`1 ≤ s ≤ N−1`) to section `s` — the section
whose LEFT endpoint is `x`, so evaluation at an interior edge uses the
right-adjacent polynomial — and `find_section(S[0]) = 0`,
`find_section(S[N]) = N−1`. -/
theorem C10_find_section_edges (p : PiecewisePoly) (hp : p.Valid) :
    find_section p (p.sectionEdges.getD 0 0) = 0 ∧
    find_section p (p.sectionEdges.getD p.numSections 0) = (p.numSections : ℤ) - 1 ∧
    ∀ s : ℕ, 1 ≤ s → s ≤ p.numSections - 1 →
      find_section p (p.sectionEdges.getD s 0) = (s : ℤ) :=
  ⟨find_section_first p, find_section_last p hp,
   fun s hs1 hs2 => find_section_interior p hp s hs1 hs2⟩

/-- C10 witness: the section-lookup facts evaluated on the concrete
two-section object `exH` (edges `0, 1, 2`). -/
theorem C10_find_section_edges_witness :
    find_section exH (exH.sectionEdges.getD 0 0) = 0 ∧
    find_section exH (exH.sectionEdges.getD 1 0) = 1 ∧
    find_section exH (exH.sectionEdges.getD exH.numSections 0) = (exH.numSections : ℤ) - 1 := by
  have h := C10_find_section_edges exH (by decide)
  exact ⟨h.1, h.2.2 1 (by decide) (by decide), h.2.1⟩

/-- C4 counterexample: at `x = 2`, outside the domain `[0,1]` of
`f(x) = x`, `compute_value` does not fail with `RangeError` as the claim
states; the unchecked section lookup produces an out-of-range section
index (undefined behaviour in the C++ source). -/
theorem C4_counterexample_no_range_error :
    compute_value exF 2 = Except.error PPError.outOfBounds ∧
    PPError.outOfBounds ≠ PPError.rangeError := by
  constructor
  · simp [compute_value, find_section, upper_bound_idx, exF, PiecewisePoly.numSections]
  · decide

/-- C4 (amended): `value(x)` succeeds at both endpoints — `value(S[0])`
evaluates in the first section and `value(S[N])` in the last — but for
`x` outside `[S[0], S[N]]` it does NOT raise `RangeError`: `find_section`
returns the out-of-range index `−1` (below) or `N` (above) and the
coefficient read is undefined behaviour (`outOfBounds` here).  The
member `check_range`, which would raise `RangeError` exactly there, is
never invoked by `value`. -/
theorem C4_value_endpoints_no_range_check (p : PiecewisePoly) (hp : p.Valid) :
    compute_value p (p.sectionEdges.getD 0 0) =
      Except.ok (evalSection p 0 (p.sectionEdges.getD 0 0)) ∧
    compute_value p (p.sectionEdges.getD p.numSections 0) =
      Except.ok (evalSection p (p.numSections - 1) (p.sectionEdges.getD p.numSections 0)) ∧
    ∀ x : ℚ, x < p.sectionEdges.getD 0 0 ∨ p.sectionEdges.getD p.numSections 0 < x →
      compute_value p x = Except.error PPError.outOfBounds ∧
      check_range p x = Except.error PPError.rangeError := by
  have hN := hp.1
  have hlen := valid_edges_length p hp
  have hidx : p.sectionEdges.length - 1 = p.numSections := by omega
  refine ⟨?_, ?_, ?_⟩
  · simp only [compute_value]
    rw [find_section_first p]
    rw [if_pos ⟨le_refl 0, by exact_mod_cast hN⟩]
    rfl
  · simp only [compute_value]
    rw [find_section_last p hp]
    rw [if_pos ⟨by omega, by omega⟩]
    have ht : ((p.numSections : ℤ) - 1).toNat = p.numSections - 1 := by omega
    rw [ht]
  · intro x hx
    constructor
    · rcases hx with hlt | hgt
      · simp only [compute_value]
        rw [find_section_below p hp x hlt]
        rw [if_neg (by omega)]
      · simp only [compute_value]
        have hgt2 : p.sectionEdges.getD (p.sectionEdges.length - 1) 0 < x := by
          rw [hidx]; exact hgt
        rw [find_section_above p hp x hgt2]
        rw [if_neg (by omega)]
    · unfold check_range
      rw [if_pos]
      rcases hx with h | h
      · exact Or.inl h
      · exact Or.inr (by rw [hidx]; exact h)

/-- C4 witness: the amended statement evaluated on `f(x) = x` over
`[0,1]`: both endpoint evaluations succeed, and at `x = 2` the unused
`check_range` would have raised `RangeError`. -/
theorem C4_value_endpoints_witness :
    compute_value exF (exF.sectionEdges.getD 0 0) =
      Except.ok (evalSection exF 0 (exF.sectionEdges.getD 0 0)) ∧
    compute_value exF (exF.sectionEdges.getD exF.numSections 0) =
      Except.ok (evalSection exF (exF.numSections - 1)
        (exF.sectionEdges.getD exF.numSections 0)) ∧
    check_range exF 2 = Except.error PPError.rangeError := by
  have h := C4_value_endpoints_no_range_check exF (by decide)
  exact ⟨h.1, h.2.1, (h.2.2 2 (Or.inr (by decide))).2⟩

end Irlib

namespace Irlib

/-- C1: evaluation of the initial-partition construction of
`generate_ir_basis_functions` at the failing input `verbose = false`.
With the verbosity flag off (its default), the call to
`compute_approximate_nodes_even_sector` is skipped — it sits inside the
`if (verbose)` block — so the initial partitions degenerate to `{0, 1}`,
while with `verbose = true` the approximate nodes are inserted.  The
construction is therefore NOT independent of the verbosity flag, contrary
to the claim (and to the unconditional comment above the block in the
source). -/
theorem C1_initial_partition_verbose_gate :
    initial_partitions false ([1/2], [1/3]) = ([0, 1], [0, 1]) ∧
    initial_partitions true ([1/2], [1/3]) = ([0, 1/2, 1], [0, 1/3, 1]) ∧
    initial_partitions false ([1/2], [1/3]) ≠ initial_partitions true ([1/2], [1/3]) := by
  refine ⟨rfl, rfl, ?_⟩
  norm_num [initial_partitions, gen_section_edges]

/-- C3 counterexample: with `max_dim = 5 ≥ 1` and `sv_cutoff = 2 ≥ 1` the
selection loop keeps NOTHING — already the first check compares
`σ₀/σ₀ = 1 < sv_cutoff` and breaks — so the returned lists are empty,
not of length one as the claim states for every `sv_cutoff ≥ 1`. -/
theorem C3_counterexample_empty_selection :
    pickSV 5 2 [4, 2, 1] [3, 1, 1] = [] ∧
    (pickSV 5 2 [4, 2, 1] [3, 1, 1]).length ≠ 1 := by
  have h : pickSV 5 2 [4, 2, 1] [3, 1, 1] = [] := by
    norm_num [pickSV, pickSVGo]
  exact ⟨h, by rw [h]; decide⟩

/-- C3 (amended): with a positive leading even singular value `s0`,
`sv_cutoff > 1` makes the selection empty (the first check already
fails), while `sv_cutoff = 1` keeps exactly the first even-sector triple
`(s0, even, 0)` — the `l = 0` pair — provided `max_dim = 1` or the odd
leader is strictly below `s0` (as it is for the physical kernels). -/
theorem C3_cutoff_one_single_function (max_dim : ℕ) (sv_cutoff s0 o0 : ℚ)
    (es os : List ℚ) (hm : 1 ≤ max_dim) (hs : 0 < s0) :
    (1 < sv_cutoff → pickSV max_dim sv_cutoff (s0 :: es) (o0 :: os) = []) ∧
    (sv_cutoff = 1 → (max_dim = 1 ∨ o0 < s0) →
      pickSV max_dim sv_cutoff (s0 :: es) (o0 :: os) = [(s0, Sector.even, 0)]) := by
  have hdiv : s0 / s0 = 1 := div_self (ne_of_gt hs)
  constructor
  · intro hc
    show pickSVGo s0 sv_cutoff max_dim (s0 :: es) (o0 :: os) 0 0 = []
    rw [pickSVGo]
    rw [if_pos (Or.inr (by rw [hdiv]; exact hc))]
  · intro hc hcase
    show pickSVGo s0 sv_cutoff max_dim (s0 :: es) (o0 :: os) 0 0 = _
    rw [pickSVGo]
    rw [if_neg (by
      push_neg
      exact ⟨by omega, by rw [hdiv, hc]⟩)]
    rcases hcase with h1 | h2
    · rw [if_pos (Or.inl (by omega))]
    · rw [if_pos (Or.inr (by rw [hc]; exact (div_lt_one hs).mpr h2))]

/-- C3 witness: the amended statement at `sv_cutoff = 1`, `max_dim = 1`,
even singular values `[2]` and odd singular values `[1]`. -/
theorem C3_cutoff_one_single_function_witness :
    pickSV 1 1 [2] [1] = [(2, Sector.even, 0)] :=
  (C3_cutoff_one_single_function 1 1 2 1 [] [] (by decide) (by decide)).2 rfl (Or.inl rfl)

end Irlib

namespace Irlib

/-- C5: the ascending-order guards of `compute_Tbar_ol` and
`compute_Tnl` fire only on a strictly DESCENDING adjacent pair
(`o_vec[i] > o_vec[i+1]`).  A sequence with two equal adjacent entries,
such as `[1, 1]`, passes without an `OrderError`, contradicting the claim
(and the error message of the guard itself, which says the input must be
strictly ascending); a descending pair does raise the error, and every
strictly ascending sequence passes. -/
theorem C5_order_guard_accepts_equal_entries :
    tbar_order_guard [1, 1] = Except.ok () ∧
    tnl_order_guard [1, 1] = Except.ok () ∧
    tbar_order_guard [2, 1] = Except.error ("o must be given in strictly ascending order!") ∧
    tnl_order_guard [2, 1] = Except.error ("n_vec must be in strictly ascending order!") ∧
    ∀ v : List ℤ, v.Chain' (· < ·) →
      tbar_order_guard v = Except.ok () ∧ tnl_order_guard v = Except.ok () := by
  refine ⟨by decide, by decide, by decide, by decide, ?_⟩
  intro v
  induction v with
  | nil => intro _; exact ⟨rfl, rfl⟩
  | cons a t ih =>
    intro hv
    cases t with
    | nil => exact ⟨rfl, rfl⟩
    | cons b t2 =>
      rw [List.chain'_cons] at hv
      have hab : ¬ (a > b) := not_lt.mpr (le_of_lt hv.1)
      constructor
      · show (if a > b then _ else tbar_order_guard (b :: t2)) = _
        rw [if_neg hab]
        exact (ih hv.2).1
      · show (if a > b then _ else tnl_order_guard (b :: t2)) = _
        rw [if_neg hab]
        exact (ih hv.2).2

/-- C5 witness: the strictly ascending input `[0, 3, 7]` passes both
guards. -/
theorem C5_order_guard_witness :
    tbar_order_guard [0, 3, 7] = Except.ok () ∧ tnl_order_guard [0, 3, 7] = Except.ok () :=
  C5_order_guard_accepts_equal_entries.2.2.2.2 [0, 3, 7]
    (by norm_num [List.chain'_cons])

/-- C6 counterexample: with `num_local_poly = 3` and a single kept
singular triple (`dim = 1`, so the code index `l = 0`), on the section
`[0, 1]` with last-vector entry `1`, the code reports
`|1 · √((2·0+1)/1)| = 1` while the claim formula
`|1| · √((2·3−1)/1) = √5` differs: the radicand of the code is
`2·dim − 1`, not `2·num_local_poly − 1`. -/
theorem C6_counterexample_radicand :
    residual_x_code (fun _ => 1) 3 1 [0, 1] 0 ≠ residual_x_claim (fun _ => 1) 3 [0, 1] 0 := by
  unfold residual_x_code residual_x_claim
  norm_num
  intro h
  have h5 : Real.sqrt 5 = 1 := by linarith [h]
  have := Real.sqrt_eq_one.mp h5
  norm_num at this

/-- C6 (amended): the per-section residual the code reports equals
`|v_last[s·num_local_poly + num_local_poly − 1]| · √((2·dim − 1)/Δ_s)`
where `dim` is the number of kept singular triples (the code uses
`l = Uvec.size() − 1`, the index of the last basis function, in the
radicand — not `num_local_poly − 1`); identically for the y-sections
with the last right singular vector. -/
theorem C6_residual_uses_dim (uvecLast : ℕ → ℚ) (num_local_poly dim : ℕ)
    (section_edges : List ℚ) (s : ℕ) (hd : 1 ≤ dim) :
    residual_x_code uvecLast num_local_poly dim section_edges s =
      residual_x_dim_formula uvecLast num_local_poly dim section_edges s := by
  unfold residual_x_code residual_x_dim_formula
  rw [abs_mul, abs_of_nonneg (Real.sqrt_nonneg _)]
  have hcast : ((dim - 1 : ℕ) : ℝ) = (dim : ℝ) - 1 := by
    have h2 := Nat.cast_sub (R := ℝ) hd
    simpa using h2
  rw [hcast]
  ring_nf

/-- C6 witness: the amended formula evaluated at `num_local_poly = 3`,
`dim = 2`, section `[0, 1]`, constant last-vector entry `2`. -/
theorem C6_residual_uses_dim_witness :
    residual_x_code (fun _ => 2) 3 2 [0, 1] 0 =
      residual_x_dim_formula (fun _ => 2) 3 2 [0, 1] 0 :=
  C6_residual_uses_dim (fun _ => 2) 3 2 [0, 1] 0 (by decide)

end Irlib

namespace Irlib

/-- C7: `compute_Tnl_impl` — the one routine of the embedded headers that
changes the process-wide default precision — saves the caller precision
on entry and the precision it returns alongside its result equals that
saved value on EVERY exit path; moreover no error exit actually occurs:
the only raising callee, `compute_Tnl_tail` with its zero-frequency
error, is invoked only under the guard `w ≠ 0`, so the final
`set_default_prec(prec_bak)` is always reached. -/
theorem C7_precision_restored (p : PiecewisePoly) (even : Bool) (stat : Statistics)
    (w : ℚ) (digits_A digits_B : ℕ) (d2b : ℕ → ℕ) (localNodes : List (ℚ × ℚ))
    (prec0 : ℕ) :
    (compute_Tnl_impl p even stat w digits_A digits_B d2b localNodes prec0).2 = prec0 ∧
    ∀ e, (compute_Tnl_impl p even stat w digits_A digits_B d2b localNodes prec0).1 ≠
      Except.error e := by
  constructor
  · by_cases hw : w = 0
    · simp [compute_Tnl_impl, hw]
    · simp [compute_Tnl_impl, compute_Tnl_tail, hw]
  · intro e
    by_cases hw : w = 0
    · simp [compute_Tnl_impl, hw]
    · simp [compute_Tnl_impl, compute_Tnl_tail, hw]

/-- C8: after `compute_integral_with_exp` produced the raw exponential
integrals, `compute_Tbar_ol` replaces an entry with `l + o` even by twice
its real part (so it is purely real) and an entry with `l + o` odd by
`2i` times its imaginary part (so it is purely imaginary), and then
multiplies every entry of column `l` by
`sqrt(1/2)/sqrt(2·⟨U_l, U_l⟩)` with `⟨U_l, U_l⟩` the self-overlap of
basis function `l` on `[0,1]`. -/
theorem C8_tbar_postprocess (o_vec : List ℤ) (bf : List PiecewisePoly)
    (raw : ℕ → ℕ → ℂ) (i l : ℕ) :
    (((l : ℤ) + o_vec.getD i 0) % 2 = 0 →
      compute_Tbar_ol_post o_vec bf raw i l =
        (((Real.sqrt (1/2) / Real.sqrt
            (2 * ((overlap_val (bf.getD l default) (bf.getD l default) : ℚ) : ℝ)) : ℝ)) : ℂ) *
          (((2 * (raw i l).re : ℝ)) : ℂ) ∧
      (compute_Tbar_ol_post o_vec bf raw i l).im = 0) ∧
    (((l : ℤ) + o_vec.getD i 0) % 2 ≠ 0 →
      compute_Tbar_ol_post o_vec bf raw i l =
        Complex.I * (((Real.sqrt (1/2) / Real.sqrt
            (2 * ((overlap_val (bf.getD l default) (bf.getD l default) : ℚ) : ℝ)) : ℝ)) : ℂ) *
          (((2 * (raw i l).im : ℝ)) : ℂ) ∧
      (compute_Tbar_ol_post o_vec bf raw i l).re = 0) := by
  have hc : ∀ ov : ℝ, (1 / Real.sqrt (2 * ov)) * Real.sqrt 0.5 =
      Real.sqrt (1/2) / Real.sqrt (2 * ov) := by
    intro ov
    rw [show (0.5 : ℝ) = 1/2 by norm_num]
    ring
  constructor
  · intro hpar
    unfold compute_Tbar_ol_post tbar_normalize tbar_symmetrize
    dsimp only
    rw [if_pos hpar, hc]
    constructor
    · rw [mul_comm]
    · rw [← Complex.ofReal_mul]
      exact Complex.ofReal_im _
  · intro hpar
    unfold compute_Tbar_ol_post tbar_normalize tbar_symmetrize
    dsimp only
    rw [if_neg hpar, hc]
    constructor
    · rw [Complex.mk_eq_add_mul_I]
      push_cast
      ring
    · rw [Complex.mul_re]
      dsimp only
      rw [Complex.ofReal_im]
      ring

/-- C8 witness: the even-parity statement evaluated at `o_vec = [2]`,
basis list `[exF]`, constant raw tensor `3 + 4i`, entry `(0, 0)`. -/
theorem C8_tbar_postprocess_witness :
    compute_Tbar_ol_post [2] [exF] rawEx 0 0 =
      (((Real.sqrt (1/2) / Real.sqrt
          (2 * ((overlap_val (List.getD [exF] 0 default) (List.getD [exF] 0 default) : ℚ) : ℝ)) : ℝ)) : ℂ) *
        (((2 * (rawEx 0 0).re : ℝ)) : ℂ) ∧
    (compute_Tbar_ol_post [2] [exF] rawEx 0 0).im = 0 :=
  (C8_tbar_postprocess [2] [exF] rawEx 0 0).1 (by decide)

end Irlib

namespace Irlib

/-- C7 witness: the precision-restoration fact evaluated at a concrete
call (basis function `f(x) = x`, `w = 1`, entry precision 64 bits). -/
theorem C7_precision_restored_witness :
    (compute_Tnl_impl exF true Statistics.fermionic 1 30 30 (fun d => 4 * d) [] 64).2 = 64 :=
  (C7_precision_restored exF true Statistics.fermionic 1 30 30 (fun d => 4 * d) [] 64).1

end Irlib
